import Mathlib

/-!
Verification of the effect dispatch engine in `effect/__init__.py`.

The Python module defines an `Effect` class wrapping an *intent* together
with an ordered list of continuation pairs `(success, error)` (each side
optional), a `perform(handlers)` method that resolves a handler for the
intent and walks the continuation chain, a `_maybe_chain` helper that
transparently performs nested `Effect` results and attaches itself onto
Twisted Deferreds, a `_chain_deferred` helper that re-attaches the
remaining continuation pairs onto a Deferred, combinators
(`on_success`, `on_error`, `after`, `on`, `with_callbacks`), and a
`ParallelEffects` intent plus `parallel` combinator.

The embedding below is deep on the data side: callbacks, handler-table
entries and intrinsic `perform_effect` bodies are drawn from small closed
syntaxes (`CbE`, `HB`, `IB`) with evaluators, so that every quantified
theorem ranges over concretely evaluable programs.  Twisted Deferreds are
modelled as inert values carrying the ordered list of continuations
attached to them (`addCallback` / `addCallbacks` append), which is all the
chain walker observes about them.  Python exceptions raised by a callback
are captured by `_dispatch_callback` as `sys.exc_info()`; we model the
captured fault as a `Val.excInfo` value carrying an opaque numeric payload.
Python's call stack is finite (RecursionError), which the `fuel` parameter
of the evaluator models; `Exn.fuelOut` corresponds to exhausting it.
-/

set_option autoImplicit false

/-- Runtime type of an intent: a user-defined class, or `ParallelEffects`. -/
inductive IntentTy where
  | user (n : Nat)
  | parTy
deriving DecidableEq

mutual

/-- A Python value as seen by the chain walker: a plain (inert) value, a
captured `sys.exc_info()` fault, an `Effect` instance, or a Deferred. -/
inductive Val where
  | base (n : Nat)
  | excInfo (f : Nat)
  | eff (e : Effect)
  | defr (d : Deferred)

/-- The `Effect` class: one intent plus the ordered continuation-pair list. -/
inductive Effect where
  | mk (intent : Intent) (callbacks : List (Option CbE × Option CbE))

/-- An effect intent: either an application-defined object with a runtime
type tag, a payload, and an optional intrinsic `perform_effect` method, or
a `ParallelEffects(effects)` instance. -/
inductive Intent where
  | basic (ty : Nat) (payload : Nat) (intrinsic : Option IB)
  | par (effects : List Effect)

/-- Syntax of callbacks attached via `on` and friends: return a constant
value, raise, return the argument, or compute from a numeric argument
(the last two make order and data flow observable). -/
inductive CbE where
  | const (v : Val)
  | raiseE (f : Nat)
  | idE
  | addConst (k : Nat)
  | push (k : Nat)

/-- Syntax of an intrinsic `perform_effect(handlers)` body of a basic
intent: return a constant, raise, or compute from the handler table it
receives (making the table argument observable). -/
inductive IB where
  | iconst (v : Val)
  | iraise (f : Nat)
  | itableSize (k : Nat)

/-- Syntax of a handler-table entry.  `htableSize` and `hpayload` compute
from the handler table and from the intent respectively, making both
arguments of the invocation observable. -/
inductive HB where
  | hconst (v : Val)
  | hraise (f : Nat)
  | htableSize (k : Nat)
  | hpayload (k : Nat)

/-- An exception escaping `perform`: `NoEffectHandlerError(intent)`, a
re-raised captured fault (`raise result[1:]`), or exhaustion of the
modelled recursion depth. -/
inductive Exn where
  | noHandler (i : Intent)
  | raised (f : Nat)
  | fuelOut

/-- A Twisted Deferred as the walker sees it: where it came from and the
ordered list of continuations attached to it so far. -/
inductive Deferred where
  | mk (src : DSrc) (attached : List Att)

/-- Origin of a Deferred: an ambient one returned by a handler or
callback, or the `gatherResults` aggregate built by
`ParallelEffects.perform_effect` holding the outcome of performing each
child (via `maybeDeferred`, which captures a synchronous raise). -/
inductive DSrc where
  | ambient (id : Nat)
  | gather (results : List (Except Exn Val))

/-- One attachment on a Deferred: the `_maybe_chain` continuation added by
`addCallback`, or a `(callback, errback)` pair added by `addCallbacks`
from `_chain_deferred`. -/
inductive Att where
  | maybeChainAtt
  | pairAtt (cb : DCb) (eb : Option CbE)

/-- The callback slot of an `addCallbacks` attachment: the identity
pass-through substituted for an absent success side, or a user callback. -/
inductive DCb where
  | identity
  | user (c : CbE)

end

def Effect.intent : Effect → Intent
  | .mk i _ => i

def Effect.callbacks : Effect → List (Option CbE × Option CbE)
  | .mk _ cs => cs

/-- Runtime type of an intent, the key used for handler-table lookup. -/
def Intent.ty : Intent → IntentTy
  | .basic t _ _ => .user t
  | .par _ => .parTy

/-- Numeric payload of an intent (observable data carried by it). -/
def Intent.payloadN : Intent → Nat
  | .basic _ p _ => p
  | .par es => es.length

def Deferred.src : Deferred → DSrc
  | .mk s _ => s

def Deferred.attached : Deferred → List Att
  | .mk _ a => a

/-- The handler table: a finite map from intent runtime types to entries,
modelled as an association list (first match wins, as in a dict). -/
abbrev Handlers := List (IntentTy × HB)

def lookupH : Handlers → IntentTy → Option HB
  | [], _ => none
  | (t, hb) :: rest, ty => if t = ty then some hb else lookupH rest ty

def Val.toNat : Val → Nat
  | .base n => n
  | _ => 0

/-- Payload extracted when re-raising a captured fault
(`raise result[1:]`); only ever applied to `excInfo` values. -/
def excPayload : Val → Nat
  | .excInfo f => f
  | _ => 0

/-- True for values that are neither an `Effect` nor a Deferred, i.e.
values that `_maybe_chain` passes through unchanged and that do not
trigger the short-circuit handoff. -/
def isInert : Val → Bool
  | .base _ => true
  | .excInfo _ => true
  | .eff _ => false
  | .defr _ => false

/-- `Effect._dispatch_callback(callback, argument)`: invoke the callback,
returning `(False, returnValue)` on normal return and
`(True, sys.exc_info())` when it raises. -/
def dispatchCallback : CbE → Val → Bool × Val
  | .const v, _ => (false, v)
  | .raiseE f, _ => (true, .excInfo f)
  | .idE, v => (false, v)
  | .addConst k, v => (false, .base (v.toNat + k))
  | .push k, v => (false, .base (10 * v.toNat + k))

/-- Invocation of a handler-table entry.  In the source the entry is
partially applied to the intent and then called with the handler table as
the chain's initial `result`, so it receives both; raising is captured as
for callbacks. -/
def evalHB : HB → Intent → Handlers → Bool × Val
  | .hconst v, _, _ => (false, v)
  | .hraise f, _, _ => (true, .excInfo f)
  | .htableSize k, _, h => (false, .base (h.length + k))
  | .hpayload k, i, _ => (false, .base (i.payloadN + k))

/-- Invocation of an intrinsic `perform_effect(handlers)` body of a basic
intent (the intent itself is `self`); raising is captured. -/
def evalIB : IB → Handlers → Bool × Val
  | .iconst v, _ => (false, v)
  | .iraise f, _ => (true, .excInfo f)
  | .itableSize k, h => (false, .base (h.length + k))

/-- The `if cb is None: cb = lambda r: r` defaulting in `_chain_deferred`. -/
def padCb : Option CbE → DCb
  | none => .identity
  | some c => .user c

/-- `deferred.addCallbacks(cb, eb)`: append one pair attachment. -/
def Deferred.addCallbacks : Deferred → DCb → Option CbE → Deferred
  | .mk s a, cb, eb => .mk s (a ++ [.pairAtt cb eb])

/-- `result.addCallback(self._maybe_chain, handlers)` in `_maybe_chain`:
append the maybe-chain continuation. -/
def Deferred.addMaybeChain : Deferred → Deferred
  | .mk s a => .mk s (a ++ [.maybeChainAtt])

/-- `Effect._chain_deferred(deferred, callbacks)`: attach every remaining
continuation pair onto the Deferred, substituting the identity for an
absent success side, and return the Deferred. -/
def chainDeferred : Deferred → List (Option CbE × Option CbE) → Deferred
  | d, [] => d
  | d, (cb, eb) :: rest => chainDeferred (d.addCallbacks (padCb cb) eb) rest

mutual

/-- `Effect.perform(handlers)`: resolve a handler for the intent (table
entry first, then the intent's own `perform_effect`, else raise
`NoEffectHandlerError(intent)`), then run the callback chain with the
resolved invocation as step 0.  `fuel` bounds the nested-perform
recursion depth (Python's call stack). -/
def perform : Nat → Effect → Handlers → Except Exn Val
  | 0, _, _ => .error .fuelOut
  | n+1, .mk i cbs, h =>
    match lookupH h i.ty with
    | some hb => continueChain n h cbs (evalHB hb i h).1 (evalHB hb i h).2
    | none =>
      match i with
      | .basic t p (some ib) => continueChain n h cbs (evalIB ib h).1 (evalIB ib h).2
      | .basic t p none => .error (.noHandler (.basic t p none))
      | .par effs =>
        continueChain n h cbs false (.defr (.mk (.gather (performList n h effs)) []))
termination_by n e h => (n, 0, 0)

/-- `Effect._maybe_chain(result, handlers)`: a Deferred gets the
maybe-chain continuation attached and is returned; an `Effect` is
performed against the same handler table (a raise propagates); anything
else passes through unchanged. -/
def maybeChain : Nat → Handlers → Val → Except Exn Val
  | _, _, .defr d => .ok (.defr d.addMaybeChain)
  | n, h, .eff e => perform n e h
  | _, _, v => .ok v
termination_by n h v => (n, 0, 1)

/-- The tail of one iteration of the `_dispatch_callback_chain` loop,
entered right after `_dispatch_callback` produced `(isErr, v)` for the
step whose not-yet-run successors are `rest`: apply `_maybe_chain`, then
if the result is a Deferred short-circuit via `_chain_deferred` on
`rest`, otherwise continue walking `rest`. -/
def continueChain (n : Nat) (h : Handlers) (rest : List (Option CbE × Option CbE))
    (isErr : Bool) (v : Val) : Except Exn Val :=
  match maybeChain n h v with
  | .error ex => .error ex
  | .ok (.defr d) => .ok (.defr (chainDeferred d rest))
  | .ok v2 => dispatchCallbackChain n h rest isErr v2
termination_by (n, rest.length + 1, 0)

/-- The remainder of the `_dispatch_callback_chain` loop over the stored
continuation pairs: select the success or error side of each pair by the
current error flag, skip absent sides unchanged, run selected callbacks
with fault capture, and at the end re-raise the captured fault
(`raise result[1:]`) or return the final result. -/
def dispatchCallbackChain : Nat → Handlers → List (Option CbE × Option CbE) → Bool → Val →
    Except Exn Val
  | _, _, [], isErr, v => if isErr then .error (.raised (excPayload v)) else .ok v
  | n, h, (s, e) :: rest, isErr, v =>
    match (if isErr then e else s) with
    | none => dispatchCallbackChain n h rest isErr v
    | some c => continueChain n h rest (dispatchCallback c v).1 (dispatchCallback c v).2
termination_by n h l isErr v => (n, l.length, 2)

/-- The list comprehension in `ParallelEffects.perform_effect`:
`[maybeDeferred(e.perform, handlers) for e in self.effects]`; each child
is performed against the same table, a raise being captured as a failed
outcome rather than propagating. -/
def performList : Nat → Handlers → List Effect → List (Except Exn Val)
  | _, _, [] => []
  | n, h, e :: rest => perform n e h :: performList n h rest
termination_by n h l => (n, l.length, 3)

end

/-- `Effect.with_callbacks(intent, callbacks)`: the internal constructor. -/
def Effect.with_callbacks (i : Intent) (cbs : List (Option CbE × Option CbE)) : Effect :=
  .mk i cbs

/-- `Effect(intent)`: wrap an intent with an empty continuation list. -/
def wrap (i : Intent) : Effect := .mk i []

/-- `Effect.on(success, error)`: a brand-new Effect with the same intent
and the previous pairs plus one appended pair. -/
def Effect.on (e : Effect) (success error : Option CbE) : Effect :=
  Effect.with_callbacks e.intent (e.callbacks ++ [(success, error)])

/-- `Effect.on_success(callback)`. -/
def Effect.on_success (e : Effect) (c : CbE) : Effect := e.on (some c) none

/-- `Effect.on_error(callback)`. -/
def Effect.on_error (e : Effect) (c : CbE) : Effect := e.on none (some c)

/-- `Effect.after(callback)`. -/
def Effect.after (e : Effect) (c : CbE) : Effect := e.on (some c) (some c)

/-- `parallel(effects)`: wrap a `ParallelEffects(effects)` intent. -/
def parallel (effs : List Effect) : Effect := .mk (.par effs) []

/-! ### Spec-side reference definitions

`successFold` states, in the spec's words, what a chain of success-side
callbacks computes: each non-absent success callback is applied exactly
once, in attachment order, to the previous step's return value; absent
pairs pass the value through.  `GoodChain` states the hypothesis that
every success-side callback in the chain returns normally with a plain
(inert) value at the argument it will receive. -/

def successFold : List (Option CbE × Option CbE) → Val → Val
  | [], v => v
  | (none, _) :: rest, v => successFold rest v
  | (some s, _) :: rest, v => successFold rest (dispatchCallback s v).2

def GoodChain : List (Option CbE × Option CbE) → Val → Bool
  | [], _ => true
  | (none, _) :: rest, v => GoodChain rest v
  | (some s, _) :: rest, v =>
    !(dispatchCallback s v).1 && isInert (dispatchCallback s v).2
      && GoodChain rest (dispatchCallback s v).2

/-- The attachment that `_chain_deferred` makes for one continuation
pair: its success side (identity if absent) into the Deferred's callback
slot, its error side into the errback slot. -/
def attachOf (p : Option CbE × Option CbE) : Att := .pairAtt (padCb p.1) p.2

/-! ### Unfolding and single-step lemmas for the evaluator -/

theorem perform_table (n : Nat) (h : Handlers) (i : Intent)
    (cbs : List (Option CbE × Option CbE)) (hb : HB)
    (hl : lookupH h i.ty = some hb) :
    perform (n+1) (.mk i cbs) h = continueChain n h cbs (evalHB hb i h).1 (evalHB hb i h).2 := by
  cases i with
  | basic t p intr => cases intr <;> simp only [perform, hl]
  | par effs => simp only [perform, hl]

theorem perform_intr (n : Nat) (h : Handlers) (t p : Nat) (ib : IB)
    (cbs : List (Option CbE × Option CbE))
    (hl : lookupH h (.user t) = none) :
    perform (n+1) (.mk (.basic t p (some ib)) cbs) h
      = continueChain n h cbs (evalIB ib h).1 (evalIB ib h).2 := by
  simp only [perform, Intent.ty, hl]

theorem perform_nohandler (n : Nat) (h : Handlers) (t p : Nat)
    (cbs : List (Option CbE × Option CbE))
    (hl : lookupH h (.user t) = none) :
    perform (n+1) (.mk (.basic t p none) cbs) h = .error (.noHandler (.basic t p none)) := by
  simp only [perform, Intent.ty, hl]

theorem perform_par (n : Nat) (h : Handlers) (effs : List Effect)
    (cbs : List (Option CbE × Option CbE))
    (hl : lookupH h .parTy = none) :
    perform (n+1) (.mk (.par effs) cbs) h
      = continueChain n h cbs false (.defr (.mk (.gather (performList n h effs)) [])) := by
  simp only [perform, Intent.ty, hl]

theorem mc_inert (n : Nat) (h : Handlers) (v : Val) (hv : isInert v = true) :
    maybeChain n h v = .ok v := by
  cases v <;> simp_all [maybeChain, isInert]

theorem cc_inert (n : Nat) (h : Handlers) (rest : List (Option CbE × Option CbE))
    (isErr : Bool) (v : Val) (hv : isInert v = true) :
    continueChain n h rest isErr v = dispatchCallbackChain n h rest isErr v := by
  rw [continueChain.eq_def, mc_inert n h v hv]
  cases v <;> simp_all [isInert]

theorem chainDeferred_attach (l : List (Option CbE × Option CbE)) (s : DSrc) (a : List Att) :
    chainDeferred (.mk s a) l = .mk s (a ++ l.map attachOf) := by
  induction l generalizing a with
  | nil => simp [chainDeferred]
  | cons p rest ih =>
    obtain ⟨cb, eb⟩ := p
    rw [chainDeferred, Deferred.addCallbacks, ih]
    simp [attachOf]

theorem cc_defr (n : Nat) (h : Handlers) (rest : List (Option CbE × Option CbE))
    (isErr : Bool) (s : DSrc) (a : List Att) :
    continueChain n h rest isErr (.defr (.mk s a))
      = .ok (.defr (.mk s (a ++ .maybeChainAtt :: rest.map attachOf))) := by
  rw [continueChain.eq_def]
  simp [maybeChain, Deferred.addMaybeChain, chainDeferred_attach]

theorem cc_eff (n : Nat) (h : Handlers) (rest : List (Option CbE × Option CbE))
    (isErr : Bool) (E : Effect) (w : Val)
    (hp : perform n E h = .ok w) (hw : isInert w = true) :
    continueChain n h rest isErr (.eff E) = dispatchCallbackChain n h rest isErr w := by
  rw [continueChain.eq_def]
  simp only [maybeChain, hp]
  cases w <;> simp_all [isInert]

theorem dcc_nil_ok (n : Nat) (h : Handlers) (v : Val) :
    dispatchCallbackChain n h [] false v = .ok v := by
  simp [dispatchCallbackChain]

theorem dcc_nil_raise (n : Nat) (h : Handlers) (f : Nat) :
    dispatchCallbackChain n h [] true (.excInfo f) = .error (.raised f) := by
  simp [dispatchCallbackChain, excPayload]

theorem dcc_skip_succ (n : Nat) (h : Handlers) (e : Option CbE)
    (rest : List (Option CbE × Option CbE)) (v : Val) :
    dispatchCallbackChain n h ((none, e) :: rest) false v
      = dispatchCallbackChain n h rest false v := by
  simp [dispatchCallbackChain]

theorem dcc_skip_err (n : Nat) (h : Handlers) (s : Option CbE)
    (rest : List (Option CbE × Option CbE)) (v : Val) :
    dispatchCallbackChain n h ((s, none) :: rest) true v
      = dispatchCallbackChain n h rest true v := by
  simp [dispatchCallbackChain]

theorem dcc_run_succ (n : Nat) (h : Handlers) (c : CbE) (e : Option CbE)
    (rest : List (Option CbE × Option CbE)) (v : Val) :
    dispatchCallbackChain n h ((some c, e) :: rest) false v
      = continueChain n h rest (dispatchCallback c v).1 (dispatchCallback c v).2 := by
  simp [dispatchCallbackChain]

theorem dcc_run_err (n : Nat) (h : Handlers) (s : Option CbE) (c : CbE)
    (rest : List (Option CbE × Option CbE)) (v : Val) :
    dispatchCallbackChain n h ((s, some c) :: rest) true v
      = continueChain n h rest (dispatchCallback c v).1 (dispatchCallback c v).2 := by
  simp [dispatchCallbackChain]

/-- Walking a prefix whose success callbacks all return normally with
inert values computes `successFold` of that prefix and continues into the
remainder of the chain with the folded value and the success flag. -/
theorem dcc_goodchain (pre : List (Option CbE × Option CbE))
    (L : List (Option CbE × Option CbE)) (n : Nat) (h : Handlers) (v : Val)
    (hv : isInert v = true) (hg : GoodChain pre v = true) :
    dispatchCallbackChain n h (pre ++ L) false v
      = dispatchCallbackChain n h L false (successFold pre v) := by
  induction pre generalizing v with
  | nil => simp [successFold]
  | cons p rest ih =>
    obtain ⟨s, e⟩ := p
    cases s with
    | none =>
      rw [List.cons_append, dcc_skip_succ]
      exact ih v hv (by simpa [GoodChain] using hg)
    | some c =>
      rw [List.cons_append, dcc_run_succ]
      simp only [GoodChain, Bool.and_eq_true, Bool.not_eq_true'] at hg
      obtain ⟨⟨h1, h2⟩, h3⟩ := hg
      rw [h1, cc_inert n h (rest ++ L) false _ h2, ih _ h2 h3, successFold]

theorem goodchain_inert (pre : List (Option CbE × Option CbE)) (v : Val)
    (hv : isInert v = true) (hg : GoodChain pre v = true) :
    isInert (successFold pre v) = true := by
  induction pre generalizing v with
  | nil => simpa [successFold]
  | cons p rest ih =>
    obtain ⟨s, e⟩ := p
    cases s with
    | none => exact ih v hv (by simpa [GoodChain] using hg)
    | some c =>
      simp only [GoodChain, Bool.and_eq_true, Bool.not_eq_true'] at hg
      exact ih _ hg.1.2 hg.2 |>.trans rfl |> fun hh => by simpa [successFold] using hh

/-- Pairs whose error side is absent pass a fault through unchanged. -/
theorem dcc_err_skip_all (mid : List (Option CbE × Option CbE))
    (L : List (Option CbE × Option CbE)) (n : Nat) (h : Handlers) (v : Val)
    (hmid : ∀ p ∈ mid, p.2 = none) :
    dispatchCallbackChain n h (mid ++ L) true v = dispatchCallbackChain n h L true v := by
  induction mid with
  | nil => simp
  | cons p rest ih =>
    obtain ⟨s, e⟩ := p
    have he : e = none := hmid (s, e) (by simp)
    subst he
    rw [List.cons_append, dcc_skip_err]
    exact ih fun q hq => hmid q (by simp [hq])

/-- A fault that reaches the end of the chain with no error-side
continuations left is re-raised with its original payload. -/
theorem dcc_err_terminal (rest : List (Option CbE × Option CbE)) (n : Nat) (h : Handlers)
    (f : Nat) (hrest : ∀ p ∈ rest, p.2 = none) :
    dispatchCallbackChain n h rest true (.excInfo f) = .error (.raised f) := by
  have := dcc_err_skip_all rest [] n h (.excInfo f) hrest
  rw [List.append_nil] at this
  rw [this, dcc_nil_raise]

theorem performList_map (n : Nat) (h : Handlers) (effs : List Effect) :
    performList n h effs = effs.map (fun e => perform n e h) := by
  induction effs with
  | nil => simp [performList]
  | cons e rest ih => rw [performList, ih, List.map_cons]

/-! ### Claim theorems -/

/-- C1: performing an Effect built by attaching N continuation pairs via
repeated `on` calls against a table whose resolved handler and all
success-side callbacks return normally (with plain values) invokes every
non-absent success-side callback exactly once, in attachment order, each
receiving the previous step's return value — the handler's return value
for the first pair — as stated by the reference fold `successFold`; the
error sides of the pairs are universally quantified and do not occur in
the result, so no error-side callback in the chain is ever invoked. -/
theorem c1_success_chain_in_order (n : Nat) (h : Handlers) (i : Intent)
    (cbs : List (Option CbE × Option CbE)) (hb : HB) (v0 : Val)
    (hl : lookupH h i.ty = some hb)
    (hh : evalHB hb i h = (false, v0))
    (hi : isInert v0 = true)
    (hg : GoodChain cbs v0 = true) :
    perform (n+1) (.mk i cbs) h = .ok (successFold cbs v0) := by
  rw [perform_table n h i cbs hb hl, hh]
  show continueChain n h cbs false v0 = _
  rw [cc_inert n h cbs false v0 hi]
  have hfold := dcc_goodchain cbs [] n h v0 hi hg
  rw [List.append_nil] at hfold
  rw [hfold, dcc_nil_ok]

/-- Witness for C1 at a concrete chain of three pairs (the middle one
absent on both sides): the handler yields 1 and the two `push` callbacks
run in order on the running value, so the fold gives 123. -/
theorem c1_witness :
    (lookupH [(IntentTy.user 0, HB.hconst (.base 1))] (Intent.basic 0 0 none).ty
        = some (HB.hconst (.base 1))
      ∧ GoodChain [(some (CbE.push 2), some (CbE.raiseE 9)), (none, none), (some (CbE.push 3), none)]
          (.base 1) = true
      ∧ successFold [(some (CbE.push 2), some (CbE.raiseE 9)), (none, none), (some (CbE.push 3), none)]
          (.base 1) = .base 123)
    ∧ perform 1
        (.mk (.basic 0 0 none)
          [(some (.push 2), some (.raiseE 9)), (none, none), (some (.push 3), none)])
        [(.user 0, .hconst (.base 1))]
      = .ok (successFold
          [(some (.push 2), some (.raiseE 9)), (none, none), (some (.push 3), none)] (.base 1)) :=
  ⟨⟨rfl, rfl, rfl⟩,
    c1_success_chain_in_order 0 [(.user 0, .hconst (.base 1))] (.basic 0 0 none)
      [(some (.push 2), some (.raiseE 9)), (none, none), (some (.push 3), none)]
      (.hconst (.base 1)) (.base 1) rfl rfl rfl rfl⟩

/-- C3: when the chain walk completes all steps synchronously, a final
error flag makes `perform` raise the captured fault — and when no
error-side continuation exists anywhere after the raising step, the fault
surfaced is the original fault of the raising callback (first conjunct)
or of the raising handler (second conjunct); a final success flag makes
`perform` return the final result value (third conjunct). -/
theorem c3_sync_termination (n : Nat) (h : Handlers) (i : Intent) (hb : HB) (v0 : Val)
    (pre rest cbs : List (Option CbE × Option CbE)) (ck : CbE) (ek : Option CbE) (f : Nat)
    (hl : lookupH h i.ty = some hb) :
    (evalHB hb i h = (false, v0) → isInert v0 = true → GoodChain pre v0 = true →
      dispatchCallback ck (successFold pre v0) = (true, .excInfo f) →
      (∀ p ∈ rest, p.2 = none) →
      perform (n+1) (.mk i (pre ++ (some ck, ek) :: rest)) h = .error (.raised f))
    ∧ (evalHB hb i h = (true, .excInfo f) → (∀ p ∈ cbs, p.2 = none) →
      perform (n+1) (.mk i cbs) h = .error (.raised f))
    ∧ (evalHB hb i h = (false, v0) → isInert v0 = true → GoodChain cbs v0 = true →
      perform (n+1) (.mk i cbs) h = .ok (successFold cbs v0)) := by
  refine ⟨fun hh hi hg hck hrest => ?_, fun hh hcbs => ?_, fun hh hi hg => ?_⟩
  · rw [perform_table n h i _ hb hl, hh]
    show continueChain n h _ false v0 = _
    rw [cc_inert n h _ false v0 hi,
      dcc_goodchain pre ((some ck, ek) :: rest) n h v0 hi hg, dcc_run_succ, hck]
    show continueChain n h rest true (.excInfo f) = _
    rw [cc_inert n h rest true (.excInfo f) rfl, dcc_err_terminal rest n h f hrest]
  · rw [perform_table n h i cbs hb hl, hh]
    show continueChain n h cbs true (.excInfo f) = _
    rw [cc_inert n h cbs true (.excInfo f) rfl, dcc_err_terminal cbs n h f hcbs]
  · rw [perform_table n h i cbs hb hl, hh]
    show continueChain n h cbs false v0 = _
    rw [cc_inert n h cbs false v0 hi]
    have hfold := dcc_goodchain cbs [] n h v0 hi hg
    rw [List.append_nil] at hfold
    rw [hfold, dcc_nil_ok]

/-- Witness for C3: one pass-through success pair, then a raising
callback, then an error-side-free pair; the original fault 7 surfaces. -/
theorem c3_witness :
    (dispatchCallback (CbE.raiseE 7)
        (successFold [(some (CbE.addConst 1), none)] (.base 1)) = (true, .excInfo 7)
      ∧ GoodChain [(some (CbE.addConst 1), none)] (.base 1) = true)
    ∧ perform 1
        (.mk (.basic 0 0 none)
          [(some (.addConst 1), none), (some (.raiseE 7), none), (some (.push 5), none)])
        [(.user 0, .hconst (.base 1))]
      = .error (.raised 7) :=
  ⟨⟨rfl, rfl⟩,
    (c3_sync_termination 0 [(.user 0, .hconst (.base 1))] (.basic 0 0 none)
        (.hconst (.base 1)) (.base 1) [(some (.addConst 1), none)] [(some (.push 5), none)]
        [] (.raiseE 7) none 7 rfl).1 rfl rfl rfl rfl (by simp)⟩

/-- C7: handler resolution precedence — a table entry keyed by the
intent's runtime type is used when present, even when an intrinsic
`perform_effect` exists (first conjunct); otherwise the intent's
intrinsic capability is used and receives the handler table as its
argument, observable through `itableSize` (second conjunct); when neither
exists, `perform` fails with `NoEffectHandlerError` carrying the
offending intent, surfaced to the caller (third conjunct). -/
theorem c7_resolution_precedence (n : Nat) (h : Handlers) (t p k m : Nat) (ib : IB) :
    (lookupH h (.user t) = some (.hconst (.base m)) →
      perform (n+1) (.mk (.basic t p (some ib)) []) h = .ok (.base m))
    ∧ (lookupH h (.user t) = none →
      perform (n+1) (.mk (.basic t p (some (.itableSize k))) []) h
        = .ok (.base (h.length + k)))
    ∧ (lookupH h (.user t) = none →
      perform (n+1) (.mk (.basic t p none) []) h
        = .error (.noHandler (.basic t p none))) := by
  refine ⟨fun hl => ?_, fun hl => ?_, fun hl => perform_nohandler n h t p [] hl⟩
  · rw [perform_table n h (.basic t p (some ib)) [] (.hconst (.base m)) hl]
    show continueChain n h [] false (.base m) = _
    rw [cc_inert n h [] false (.base m) rfl, dcc_nil_ok]
  · rw [perform_intr n h t p (.itableSize k) [] hl]
    show continueChain n h [] false (.base (h.length + k)) = _
    rw [cc_inert n h [] false (.base (h.length + k)) rfl, dcc_nil_ok]

/-- Witness for C7: a table entry beats the intrinsic `iraise`; with no
entry the intrinsic sees a table of length 1; with neither, the error
carries the intent. -/
theorem c7_witness :
    (lookupH [(IntentTy.user 0, HB.hconst (.base 4))] (.user 0) = some (HB.hconst (.base 4))
      ∧ lookupH [(IntentTy.user 9, HB.hconst (.base 4))] (.user 0) = none)
    ∧ perform 1 (.mk (.basic 0 0 (some (.iraise 3))) []) [(.user 0, .hconst (.base 4))]
        = .ok (.base 4)
    ∧ perform 1 (.mk (.basic 0 0 (some (.itableSize 0))) []) [(.user 9, .hconst (.base 4))]
        = .ok (.base 1)
    ∧ perform 1 (.mk (.basic 0 0 none) []) [(.user 9, .hconst (.base 4))]
        = .error (.noHandler (.basic 0 0 none)) :=
  ⟨⟨rfl, rfl⟩,
    (c7_resolution_precedence 0 [(.user 0, .hconst (.base 4))] 0 0 0 4 (.iraise 3)).1 rfl,
    (c7_resolution_precedence 0 [(.user 9, .hconst (.base 4))] 0 0 0 4 (.iraise 3)).2.1 rfl,
    (c7_resolution_precedence 0 [(.user 9, .hconst (.base 4))] 0 0 0 4 (.iraise 3)).2.2 rfl⟩

/-- C8: the combinators satisfy `on_success f = on f absent`,
`on_error f = on absent f`, `after f = on f f`; `on` yields a brand-new
Effect with the same intent and the previous pairs plus one appended
pair; and performing a freshly wrapped Effect runs zero continuations
(its result is exactly the handler's value).  Effects are immutable data
in this embedding, so derived Effects cannot alter the original. -/
theorem c8_combinators (e : Effect) (c : CbE) (s t : Option CbE) (n : Nat) (i : Intent)
    (h : Handlers) (m : Nat) :
    e.on_success c = e.on (some c) none
    ∧ e.on_error c = e.on none (some c)
    ∧ e.after c = e.on (some c) (some c)
    ∧ e.on s t = Effect.mk e.intent (e.callbacks ++ [(s, t)])
    ∧ (e.on s t).intent = e.intent
    ∧ (e.on s t).callbacks = e.callbacks ++ [(s, t)]
    ∧ (lookupH h i.ty = some (.hconst (.base m)) →
        perform (n+1) (wrap i) h = .ok (.base m)) := by
  refine ⟨rfl, rfl, rfl, rfl, rfl, rfl, fun hl => ?_⟩
  show perform (n+1) (.mk i []) h = _
  rw [perform_table n h i [] (.hconst (.base m)) hl]
  show continueChain n h [] false (.base m) = _
  rw [cc_inert n h [] false (.base m) rfl, dcc_nil_ok]

/-- Witness for C8 at a concrete Effect: the combinator equations hold
and performing the bare wrapped intent returns the handler's value 6. -/
theorem c8_witness :
    (lookupH [(IntentTy.user 2, HB.hconst (.base 6))] (Intent.basic 2 0 none).ty
        = some (HB.hconst (.base 6)))
    ∧ (wrap (.basic 2 0 none)).on_success (.push 1)
        = (wrap (.basic 2 0 none)).on (some (.push 1)) none
    ∧ perform 1 (wrap (.basic 2 0 none)) [(.user 2, .hconst (.base 6))] = .ok (.base 6) :=
  ⟨rfl,
    (c8_combinators (wrap (.basic 2 0 none)) (.push 1) (some (.push 1)) none 0
        (.basic 2 0 none) [(.user 2, .hconst (.base 6))] 6).1,
    (c8_combinators (wrap (.basic 2 0 none)) (.push 1) (some (.push 1)) none 0
        (.basic 2 0 none) [(.user 2, .hconst (.base 6))] 6).2.2.2.2.2.2 rfl⟩

/-- C10: when no handler is found — no table entry for the intent's type
and no intrinsic `perform_effect` — `perform` raises
`NoEffectHandlerError` before the chain walk begins, for every list of
attached continuation pairs, including ones whose error side is present
(`on_error`, `after`), so the failure cannot be intercepted by any
continuation and always propagates to the caller of `perform`. -/
theorem c10_nohandler_uninterceptable (n : Nat) (h : Handlers) (t p : Nat)
    (cbs : List (Option CbE × Option CbE))
    (hl : lookupH h (.user t) = none) :
    perform (n+1) (.mk (.basic t p none) cbs) h = .error (.noHandler (.basic t p none))
    ∧ (∀ c : CbE, perform (n+1) ((wrap (.basic t p none)).on_error c) h
        = .error (.noHandler (.basic t p none)))
    ∧ (∀ c : CbE, perform (n+1) ((wrap (.basic t p none)).after c) h
        = .error (.noHandler (.basic t p none))) :=
  ⟨perform_nohandler n h t p cbs hl,
    fun c => perform_nohandler n h t p [(none, some c)] hl,
    fun c => perform_nohandler n h t p [(some c, some c)] hl⟩

/-- Witness for C10: an empty handler table, an intent without intrinsic
performer, and an `on_error` continuation that is never consulted. -/
theorem c10_witness :
    lookupH [] (.user 3) = none
    ∧ perform 1 (.mk (.basic 3 1 none) [(none, some (.addConst 1))]) []
        = .error (.noHandler (.basic 3 1 none))
    ∧ perform 1 ((wrap (.basic 3 1 none)).on_error (.addConst 1)) []
        = .error (.noHandler (.basic 3 1 none)) :=
  ⟨rfl,
    (c10_nohandler_uninterceptable 0 [] 3 1 [(none, some (.addConst 1))] rfl).1,
    (c10_nohandler_uninterceptable 0 [] 3 1 [] rfl).2.1 (.addConst 1)⟩

/-- C2: if the selected callback at position k raises (first conjunct) or
the handler itself — position -1 — raises (second conjunct), no
success-side callback after position k is consulted (the success sides of
`mid` and of the recovering pair are universally quantified and absent
from the conclusion); the nearest subsequent pair with a non-absent error
side receives the captured fault, pairs in between pass the fault through
unchanged, and when that error-side callback returns normally the walk
resumes on the success side for the remaining pairs `rest`. -/
theorem c2_fault_routing (n : Nat) (h : Handlers) (i : Intent) (hb : HB)
    (mid rest : List (Option CbE × Option CbE)) (s' : Option CbE) (ec : CbE) (w : Val)
    (f : Nat)
    (hl : lookupH h i.ty = some hb)
    (hmid : ∀ p ∈ mid, p.2 = none)
    (hrec : dispatchCallback ec (.excInfo f) = (false, w))
    (hiw : isInert w = true) :
    (∀ (ck : CbE) (ek : Option CbE) (v0 : Val),
      evalHB hb i h = (false, v0) → isInert v0 = true →
      dispatchCallback ck v0 = (true, .excInfo f) →
      perform (n+1) (.mk i ((some ck, ek) :: (mid ++ (s', some ec) :: rest))) h
        = dispatchCallbackChain n h rest false w)
    ∧ (evalHB hb i h = (true, .excInfo f) →
      perform (n+1) (.mk i (mid ++ (s', some ec) :: rest)) h
        = dispatchCallbackChain n h rest false w) := by
  have hcommon : dispatchCallbackChain n h (mid ++ (s', some ec) :: rest) true (.excInfo f)
      = dispatchCallbackChain n h rest false w := by
    rw [dcc_err_skip_all mid ((s', some ec) :: rest) n h (.excInfo f) hmid,
      dcc_run_err, hrec]
    show continueChain n h rest false w = _
    rw [cc_inert n h rest false w hiw]
  refine ⟨fun ck ek v0 hh hiv hck => ?_, fun hh => ?_⟩
  · rw [perform_table n h i _ hb hl, hh]
    show continueChain n h ((some ck, ek) :: (mid ++ (s', some ec) :: rest)) false v0 = _
    rw [cc_inert n h _ false v0 hiv, dcc_run_succ, hck]
    show continueChain n h (mid ++ (s', some ec) :: rest) true (.excInfo f) = _
    rw [cc_inert n h _ true (.excInfo f) rfl, hcommon]
  · rw [perform_table n h i _ hb hl, hh]
    show continueChain n h (mid ++ (s', some ec) :: rest) true (.excInfo f) = _
    rw [cc_inert n h _ true (.excInfo f) rfl, hcommon]

/-- Witness for C2: the first callback raises fault 5, a success-only
pair in between is skipped, and the recovering error-side callback
`addConst 3` turns the fault into 3, resuming the success path. -/
theorem c2_witness :
    (dispatchCallback (CbE.raiseE 5) (.base 1) = (true, .excInfo 5)
      ∧ dispatchCallback (CbE.addConst 3) (.excInfo 5) = (false, .base 3))
    ∧ perform 1
        (.mk (.basic 0 0 none)
          [(some (.raiseE 5), none), (some (.push 7), none),
            (some (.push 8), some (.addConst 3))])
        [(.user 0, .hconst (.base 1))]
      = dispatchCallbackChain 0 [(.user 0, .hconst (.base 1))] [] false (.base 3) :=
  ⟨⟨rfl, rfl⟩,
    (c2_fault_routing 0 [(.user 0, .hconst (.base 1))] (.basic 0 0 none) (.hconst (.base 1))
        [(some (.push 7), none)] [] (some (.push 8)) (.addConst 3) (.base 3) 5
        rfl (by simp) rfl rfl).1 (.raiseE 5) none (.base 1) rfl rfl rfl⟩

/-- C4: whenever a step's result is an Effect — returned by a success
callback (first conjunct), by an error callback (second conjunct), or by
the resolved handler (third conjunct) — that inner Effect is performed
against the same handler table and the walk continues with the inner
performance's outcome in place of the Effect value, so the next step
receives the resolved result.  Since the inner performance is the same
`perform`, the rule applies recursively when the inner run again yields
an Effect. -/
theorem c4_nested_effect_transparency (n : Nat) (h : Handlers)
    (rest : List (Option CbE × Option CbE)) (E' : Effect) (w : Val) (f : Nat)
    (hp : perform n E' h = .ok w) (hiw : isInert w = true) :
    (∀ (c : CbE) (e : Option CbE) (v : Val),
      dispatchCallback c v = (false, .eff E') →
      dispatchCallbackChain n h ((some c, e) :: rest) false v
        = dispatchCallbackChain n h rest false w)
    ∧ (∀ (s : Option CbE) (ec : CbE),
      dispatchCallback ec (.excInfo f) = (false, .eff E') →
      dispatchCallbackChain n h ((s, some ec) :: rest) true (.excInfo f)
        = dispatchCallbackChain n h rest false w)
    ∧ (∀ (i : Intent), lookupH h i.ty = some (.hconst (.eff E')) →
      perform (n+1) (.mk i rest) h = dispatchCallbackChain n h rest false w) := by
  refine ⟨fun c e v hc => ?_, fun s ec hc => ?_, fun i hl => ?_⟩
  · rw [dcc_run_succ, hc]
    show continueChain n h rest false (.eff E') = _
    rw [cc_eff n h rest false E' w hp hiw]
  · rw [dcc_run_err, hc]
    show continueChain n h rest false (.eff E') = _
    rw [cc_eff n h rest false E' w hp hiw]
  · rw [perform_table n h i rest (.hconst (.eff E')) hl]
    show continueChain n h rest false (.eff E') = _
    rw [cc_eff n h rest false E' w hp hiw]

/-- Witness for C4 with a doubly nested Effect: the handler for type 1
returns an Effect of type 2 whose handler returns 9, so performing the
inner Effect resolves through two recursive chainings; a success callback
returning that Effect hands its resolved value 9 to the rest of the
chain. -/
theorem c4_witness :
    dispatchCallback (CbE.const (.eff (.mk (.basic 1 0 none) []))) (.base 0)
        = (false, .eff (.mk (.basic 1 0 none) []))
    ∧ perform 2 (.mk (.basic 1 0 none) [])
        [(.user 1, .hconst (.eff (.mk (.basic 2 0 none) []))), (.user 2, .hconst (.base 9))]
      = .ok (.base 9)
    ∧ dispatchCallbackChain 2
        [(.user 1, .hconst (.eff (.mk (.basic 2 0 none) []))), (.user 2, .hconst (.base 9))]
        [(some (.const (.eff (.mk (.basic 1 0 none) []))), none)] false (.base 0)
      = dispatchCallbackChain 2
        [(.user 1, .hconst (.eff (.mk (.basic 2 0 none) []))), (.user 2, .hconst (.base 9))]
        [] false (.base 9) :=
  ⟨rfl,
    by simp [perform, continueChain, maybeChain, dispatchCallbackChain, lookupH,
      Intent.ty, evalHB, isInert],
    (c4_nested_effect_transparency 2
        [(.user 1, .hconst (.eff (.mk (.basic 2 0 none) []))), (.user 2, .hconst (.base 9))]
        [] (.mk (.basic 1 0 none) []) (.base 9) 0
        (by simp [perform, continueChain, maybeChain, dispatchCallbackChain, lookupH,
          Intent.ty, evalHB, isInert]) rfl).1
      (.const (.eff (.mk (.basic 1 0 none) []))) none (.base 0) rfl⟩

/-- C5: the moment a step's post-processed result is a Deferred — whether
produced by a callback (first conjunct) or by the resolved handler
(second conjunct) — the walker executes no further steps itself: every
remaining not-yet-run continuation pair is attached onto that Deferred
exactly once, in order, after the maybe-chain continuation, with each
pair's success side in the callback slot and error side in the errback
slot, an absent success side becoming the identity pass-through (last two
conjuncts), and `perform` returns that Deferred immediately. -/
theorem c5_deferred_handoff (n : Nat) (h : Handlers) (s : DSrc) (a : List Att)
    (rest cbs : List (Option CbE × Option CbE)) (cx : CbE) (ex : Option CbE) :
    (∀ (c : CbE) (e : Option CbE) (v : Val),
      dispatchCallback c v = (false, .defr (.mk s a)) →
      dispatchCallbackChain n h ((some c, e) :: rest) false v
        = .ok (.defr (.mk s (a ++ .maybeChainAtt :: rest.map attachOf))))
    ∧ (∀ (i : Intent), lookupH h i.ty = some (.hconst (.defr (.mk s a))) →
      perform (n+1) (.mk i cbs) h
        = .ok (.defr (.mk s (a ++ .maybeChainAtt :: cbs.map attachOf))))
    ∧ attachOf (some cx, ex) = .pairAtt (.user cx) ex
    ∧ attachOf (none, ex) = .pairAtt .identity ex := by
  refine ⟨fun c e v hc => ?_, fun i hl => ?_, rfl, rfl⟩
  · rw [dcc_run_succ, hc]
    show continueChain n h rest false (.defr (.mk s a)) = _
    rw [cc_defr]
  · rw [perform_table n h i cbs (.hconst (.defr (.mk s a))) hl]
    show continueChain n h cbs false (.defr (.mk s a)) = _
    rw [cc_defr]

/-- Witness for C5: a callback returns an ambient Deferred carrying one
prior attachment; the two remaining pairs — the second with an absent
success side — are re-attached in order after the maybe-chain
continuation, and the walk returns the Deferred. -/
theorem c5_witness :
    dispatchCallback (CbE.const (.defr (.mk (.ambient 0) [.maybeChainAtt]))) (.base 1)
        = (false, .defr (.mk (.ambient 0) [.maybeChainAtt]))
    ∧ dispatchCallbackChain 0 []
        [(some (.const (.defr (.mk (.ambient 0) [.maybeChainAtt]))), none),
          (some (.push 1), some (.addConst 2)), (none, some (.addConst 4))] false (.base 1)
      = .ok (.defr (.mk (.ambient 0)
          ([.maybeChainAtt] ++ .maybeChainAtt ::
            [(some (CbE.push 1), some (CbE.addConst 2)),
              (none, some (CbE.addConst 4))].map attachOf))) :=
  ⟨rfl,
    (c5_deferred_handoff 0 [] (.ambient 0) [.maybeChainAtt]
        [(some (.push 1), some (.addConst 2)), (none, some (.addConst 4))] []
        (.push 1) none).1
      (.const (.defr (.mk (.ambient 0) [.maybeChainAtt]))) none (.base 1) rfl⟩

/-- C6 counterexample: the claim says a matching handler-table entry is
invoked as a unary call with the intent as its only argument; were that
so, the outcome of `perform` could depend only on the entry and the
intent.  The entry `htableSize 0` (same entry, same intent) yields 1
under a one-entry table and 2 under a two-entry table, because the source
invokes the entry partially applied to the intent and then called with
the handler table as the chain's initial result, so the table is its
second argument. -/
theorem c6_counterexample :
    ¬ (∀ (t1 t2 : Handlers) (E : Effect) (hb : HB),
        lookupH t1 E.intent.ty = some hb → lookupH t2 E.intent.ty = some hb →
        perform 1 E t1 = perform 1 E t2) := by
  intro hcl
  have h1 : perform 1 (.mk (.basic 0 0 none) []) [(.user 0, .htableSize 0)]
      = .ok (.base 1) := by
    simp [perform, continueChain, maybeChain, dispatchCallbackChain, lookupH,
      Intent.ty, evalHB, isInert]
  have h2 : perform 1 (.mk (.basic 0 0 none) [])
      [(.user 0, .htableSize 0), (.user 1, .hconst (.base 0))] = .ok (.base 2) := by
    simp [perform, continueChain, maybeChain, dispatchCallbackChain, lookupH,
      Intent.ty, evalHB, isInert]
  have heq := hcl [(.user 0, .htableSize 0)]
    [(.user 0, .htableSize 0), (.user 1, .hconst (.base 0))]
    (.mk (.basic 0 0 none) []) (.htableSize 0) rfl rfl
  rw [h1, h2] at heq
  simp at heq

/-- C6 amended: `perform` invokes the matching table entry with two
arguments — the intent (bound first, observable through `hpayload`) and
the handler table (passed as the chain's initial result, observable
through `htableSize`) — rather than as a unary call on the intent
alone. -/
theorem c6_handler_invocation (n : Nat) (h : Handlers) (i : Intent) (k : Nat) :
    (lookupH h i.ty = some (.htableSize k) →
      perform (n+1) (.mk i []) h = .ok (.base (h.length + k)))
    ∧ (lookupH h i.ty = some (.hpayload k) →
      perform (n+1) (.mk i []) h = .ok (.base (i.payloadN + k))) := by
  refine ⟨fun hl => ?_, fun hl => ?_⟩
  · rw [perform_table n h i [] (.htableSize k) hl]
    show continueChain n h [] false (.base (h.length + k)) = _
    rw [cc_inert n h [] false (.base (h.length + k)) rfl, dcc_nil_ok]
  · rw [perform_table n h i [] (.hpayload k) hl]
    show continueChain n h [] false (.base (i.payloadN + k)) = _
    rw [cc_inert n h [] false (.base (i.payloadN + k)) rfl, dcc_nil_ok]

/-- Witness for the amended C6: under a two-entry table the entry
`htableSize 0` for the intent yields 2 (the table's length), and
`hpayload 1` yields 6 (the intent's payload 5 plus 1): the entry sees
both the table and the intent. -/
theorem c6_witness :
    lookupH [(IntentTy.user 0, HB.htableSize 0), (IntentTy.user 1, HB.hpayload 1)]
        (Intent.basic 0 5 none).ty = some (HB.htableSize 0)
    ∧ perform 1 (.mk (.basic 0 5 none) [])
        [(.user 0, .htableSize 0), (.user 1, .hpayload 1)] = .ok (.base 2)
    ∧ perform 1 (.mk (.basic 1 5 none) [])
        [(.user 0, .htableSize 0), (.user 1, .hpayload 1)] = .ok (.base 6) :=
  ⟨rfl,
    (c6_handler_invocation 0 [(.user 0, .htableSize 0), (.user 1, .hpayload 1)]
        (.basic 0 5 none) 0).1 rfl,
    (c6_handler_invocation 0 [(.user 0, .htableSize 0), (.user 1, .hpayload 1)]
        (.basic 1 5 none) 1).2 rfl⟩

/-- C9: `parallel effects` is an Effect wrapping a `ParallelEffects`
intent with an empty continuation list (first conjunct); performing it
performs every child against the same handler table, in input order
(second conjunct), and returns the `gatherResults` aggregate Deferred
whose collected outcomes are exactly the children's results in input
order (third conjunct); when every child resolves, the aggregate holds
the list of their resolved results in input order (fourth conjunct). -/
theorem c9_parallel_order (n : Nat) (h : Handlers) (effs : List Effect) (rs : List Val)
    (hl : lookupH h .parTy = none) :
    parallel effs = .mk (.par effs) []
    ∧ performList n h effs = effs.map (fun e => perform n e h)
    ∧ perform (n+1) (parallel effs) h
        = .ok (.defr (.mk (.gather (effs.map (fun e => perform n e h))) [.maybeChainAtt]))
    ∧ (effs.map (fun e => perform n e h) = rs.map Except.ok →
      perform (n+1) (parallel effs) h
        = .ok (.defr (.mk (.gather (rs.map Except.ok)) [.maybeChainAtt]))) := by
  have hmain : perform (n+1) (parallel effs) h
      = .ok (.defr (.mk (.gather (effs.map (fun e => perform n e h))) [.maybeChainAtt])) := by
    show perform (n+1) (.mk (.par effs) []) h = _
    rw [perform_par n h effs [] hl, cc_defr, performList_map]
    simp
  exact ⟨rfl, performList_map n h effs, hmain, fun hres => by rw [hmain, hres]⟩

/-- Witness for C9: three wrapped intents resolving to 1, 2 and 3 under
the table produce the aggregate `[ok 1, ok 2, ok 3]` in input order. -/
theorem c9_witness :
    lookupH [(IntentTy.user 0, HB.hconst (.base 1)), (IntentTy.user 1, HB.hconst (.base 2)),
        (IntentTy.user 2, HB.hconst (.base 3))] .parTy = none
    ∧ perform 2 (parallel [wrap (.basic 0 0 none), wrap (.basic 1 0 none),
        wrap (.basic 2 0 none)])
        [(.user 0, .hconst (.base 1)), (.user 1, .hconst (.base 2)),
          (.user 2, .hconst (.base 3))]
      = .ok (.defr (.mk (.gather ([Val.base 1, Val.base 2, Val.base 3].map Except.ok))
          [.maybeChainAtt])) :=
  ⟨rfl,
    ((c9_parallel_order 1
        [(.user 0, .hconst (.base 1)), (.user 1, .hconst (.base 2)),
          (.user 2, .hconst (.base 3))]
        [wrap (.basic 0 0 none), wrap (.basic 1 0 none), wrap (.basic 2 0 none)]
        [.base 1, .base 2, .base 3] rfl).2.2.2
      (by simp [perform, continueChain, maybeChain, dispatchCallbackChain, lookupH,
        Intent.ty, evalHB, isInert, wrap]))⟩
